/-
Verification of scripts/fetch_baidu_hotsearch.py.

The script fetches the Baidu realtime hot-search board, extracts ranked
entries from the markup, and persists them as two JSON snapshot files.
This development shallowly embeds the script: BeautifulSoup is abstracted
by representing the markup as the list of matched card blocks together
with the sub-element contents the script selects; the Python library
functions the script relies on (str.strip, int, list.sort, json.dump)
are modelled by executable Lean functions faithful to their semantics on
the inputs the script feeds them.
-/
import Mathlib

set_option maxHeartbeats 1000000
set_option maxRecDepth 65536

/-! ### Python string and integer primitives -/

/-- Whitespace characters removed by the Python method str.strip
(restricted to the ASCII whitespace characters). -/
def pySpace (c : Char) : Bool :=
  c = ' ' || c = '\t' || c = '\n' || c = '\r' || c = '\x0b' || c = '\x0c'

/-- str.strip on a character list: drop whitespace from both ends. -/
def pyStripChars (s : List Char) : List Char :=
  ((s.dropWhile pySpace).reverse.dropWhile pySpace).reverse

/-- The Python method str.strip. -/
def pyStrip (s : String) : String := ⟨pyStripChars s.data⟩

/-- Numeric value of an ASCII digit character. -/
def digitVal (c : Char) : Nat := c.toNat - 48

/-- Digit loop of the Python int constructor: after an initial digit,
further digits may be separated by single underscores; an underscore must
be followed by a digit. -/
def pyDigitsLoop : List Char → Nat → Option Nat
  | [], acc => some acc
  | '_' :: c :: rest, acc =>
      if c.isDigit then pyDigitsLoop rest (acc * 10 + digitVal c) else none
  | ['_'], _ => none
  | c :: rest, acc =>
      if c.isDigit then pyDigitsLoop rest (acc * 10 + digitVal c) else none

/-- Unsigned part of the Python int constructor: a nonempty ASCII digit
sequence with optional single underscores between digits. -/
def pyUnsignedInt? : List Char → Option Nat
  | [] => none
  | c :: rest => if c.isDigit then pyDigitsLoop rest (digitVal c) else none

/-- The Python int constructor on a string (base 10): strip whitespace,
allow one optional sign, then a digit sequence; any other shape raises
ValueError, modelled as none. -/
def pyInt? (s : String) : Option Int :=
  match pyStripChars s.data with
  | '+' :: rest => (pyUnsignedInt? rest).map (fun n => (n : Int))
  | '-' :: rest => (pyUnsignedInt? rest).map (fun n => -(n : Int))
  | rest => (pyUnsignedInt? rest).map (fun n => (n : Int))

/-! ### Data model -/

/-- The dataclass HotSearchItem: a single hot search entry. -/
structure HotSearchItem where
  rank : Int
  title : String
  summary : String
  hot_score : String
  detail_url : String
deriving DecidableEq, Repr

/-- Abstraction of one matched card block (a div.category-wrap_iQLoo
element of the markup). Each field records the result of the select_one
call the script performs on that card: none when the sub-element is
absent, some with the text content of the element found. For the detail
anchor (a.c-single-text-ellipsis), the inner option records the href
attribute: some none is an anchor without an href attribute. -/
structure Card where
  indexText : Option String
  titleText : Option String
  summaryText : Option String
  hotScoreText : Option String
  detailAnchor : Option (Option String)
deriving DecidableEq, Repr

/-- Rank extraction of parse_hot_search, line 73 of the script:
int(card.select_one("div.index_1Ew5p").text.strip()). A missing
sub-element raises AttributeError and an unparseable text raises
ValueError; both are caught and modelled as none. -/
def rankOf (card : Card) : Option Int :=
  card.indexText.bind (fun t => pyInt? (pyStrip t))

/-- Extraction of one card, lines 72 to 96 of the script: a card with no
parseable rank is skipped; every other field independently defaults to
the empty string when its sub-element is absent, and otherwise holds the
stripped text (for the anchor, the stripped href attribute, provided the
attribute exists). -/
def extractCard (card : Card) : Option HotSearchItem :=
  match rankOf card with
  | none => none
  | some rank =>
      some { rank := rank
             title := match card.titleText with
               | some t => pyStrip t
               | none => ""
             summary := match card.summaryText with
               | some t => pyStrip t
               | none => ""
             hot_score := match card.hotScoreText with
               | some t => pyStrip t
               | none => ""
             detail_url := match card.detailAnchor with
               | some (some href) => pyStrip href
               | _ => "" }

/-- Comparison key of the final sort: items.sort(key=lambda item:
item.rank). -/
def byRank (a b : HotSearchItem) : Prop := a.rank ≤ b.rank

instance : DecidableRel byRank := fun a b => inferInstanceAs (Decidable (a.rank ≤ b.rank))

/-- parse_hot_search: extract every card in document order, dropping the
malformed ones, then sort ascending by rank with the stable Python list
sort (modelled by insertion sort, which is stable for this insertion
order). -/
def parse_hot_search (cards : List Card) : List HotSearchItem :=
  List.insertionSort byRank (cards.filterMap extractCard)

/-! ### JSON values and the Python json.dump serializer -/

/-- JSON values, restricted to the constructors the payload of the script
uses: strings, integers, arrays and objects (whose member order is
significant, as in a Python dict). -/
inductive Json where
  | str (s : String)
  | int (z : Int)
  | arr (elems : List Json)
  | obj (members : List (String × Json))
deriving Repr

/-- Lowercase hexadecimal digit, as produced by the %04x format used by
the Python json encoder for escaped control characters. -/
def hexDigitChar : Nat → Char
  | 0 => '0' | 1 => '1' | 2 => '2' | 3 => '3' | 4 => '4'
  | 5 => '5' | 6 => '6' | 7 => '7' | 8 => '8' | 9 => '9'
  | 10 => 'a' | 11 => 'b' | 12 => 'c' | 13 => 'd' | 14 => 'e'
  | _ => 'f'

/-- Decimal digit character. -/
def decDigitChar : Nat → Char
  | 0 => '0' | 1 => '1' | 2 => '2' | 3 => '3' | 4 => '4'
  | 5 => '5' | 6 => '6' | 7 => '7' | 8 => '8' | _ => '9'

/-- Decimal digits of a natural number, most significant first. -/
def natDigitsAux (n : Nat) (acc : List Char) : List Char :=
  if n < 10 then decDigitChar n :: acc
  else natDigitsAux (n / 10) (decDigitChar (n % 10) :: acc)
termination_by n
decreasing_by exact Nat.div_lt_self (by omega) (by omega)

/-- Decimal digit string of a natural number. -/
def natDigits (n : Nat) : List Char := natDigitsAux n []

/-- The Python str rendering of an int. -/
def intChars (z : Int) : List Char :=
  if z < 0 then '-' :: natDigits z.natAbs else natDigits z.toNat

/-- Escape of one character inside a JSON string, as performed by the
Python json encoder with ensure_ascii=False: only the quote, the
backslash and the control characters below 0x20 are escaped; every other
character, non-ASCII included, is emitted literally. -/
def pyEscapeChar (c : Char) : List Char :=
  if c = '"' then ['\\', '"']
  else if c = '\\' then ['\\', '\\']
  else if c = '\x08' then ['\\', 'b']
  else if c = '\x0c' then ['\\', 'f']
  else if c = '\n' then ['\\', 'n']
  else if c = '\r' then ['\\', 'r']
  else if c = '\t' then ['\\', 't']
  else if c.toNat < 32 then
    ['\\', 'u', '0', '0', hexDigitChar (c.toNat / 16), hexDigitChar (c.toNat % 16)]
  else [c]

/-- Escape of a whole JSON string body. -/
def pyEscape : List Char → List Char
  | [] => []
  | c :: s => pyEscapeChar c ++ pyEscape s

/-- A quoted JSON string literal. -/
def jsonQuote (s : String) : List Char := '"' :: pyEscape s.data ++ ['"']

/-- The newline-plus-indentation emitted between items by json.dump with
indent=2 at nesting level lvl. -/
def jsonNewlineIndent (lvl : Nat) : List Char :=
  '\n' :: List.replicate (2 * lvl) ' '

mutual

/-- Serialization of a JSON value by json.dump(payload, f,
ensure_ascii=False, indent=2): objects and arrays put every item on its
own line indented two spaces per level, the key separator is a colon and
a space, the item separator a comma, and empty containers collapse. -/
def serJson (lvl : Nat) : Json → List Char
  | .str s => jsonQuote s
  | .int z => intChars z
  | .arr [] => ['[', ']']
  | .arr (x :: xs) =>
      '[' :: jsonNewlineIndent (lvl + 1) ++ serJson (lvl + 1) x ++
        serArrRest (lvl + 1) xs ++ jsonNewlineIndent lvl ++ [']']
  | .obj [] => ['\x7b', '\x7d']
  | .obj (kv :: kvs) =>
      '\x7b' :: jsonNewlineIndent (lvl + 1) ++ serMember (lvl + 1) kv ++
        serObjRest (lvl + 1) kvs ++ jsonNewlineIndent lvl ++ ['\x7d']

/-- Serialization of one object member: quoted key, colon, space, value. -/
def serMember (lvl : Nat) : String × Json → List Char
  | (k, v) => jsonQuote k ++ ':' :: ' ' :: serJson lvl v

/-- Serialization of the remaining array elements, each preceded by a
comma and a fresh indented line. -/
def serArrRest (lvl : Nat) : List Json → List Char
  | [] => []
  | x :: xs => ',' :: jsonNewlineIndent lvl ++ serJson lvl x ++ serArrRest lvl xs

/-- Serialization of the remaining object members, each preceded by a
comma and a fresh indented line. -/
def serObjRest (lvl : Nat) : List (String × Json) → List Char
  | [] => []
  | kv :: kvs => ',' :: jsonNewlineIndent lvl ++ serMember lvl kv ++ serObjRest lvl kvs

end

/-- json.dump of a value at top level, as a string. -/
def pyJsonDumps (j : Json) : String := ⟨serJson 0 j⟩

/-! ### The snapshotter save_results and the entry point main -/

/-- The asdict image of one item, in dataclass field order. -/
def itemJson (it : HotSearchItem) : Json :=
  .obj [("rank", .int it.rank), ("title", .str it.title),
        ("summary", .str it.summary), ("hot_score", .str it.hot_score),
        ("detail_url", .str it.detail_url)]

/-- The timestamp taken by save_results, abstracted by the two strings
the script renders from it: datetime.isoformat() and the strftime date
in YYYYMMDD form. A frozen clock is one fixed value of this structure. -/
structure Timestamp where
  iso : String
  dateYYYYMMDD : String

/-- The payload envelope built by save_results: the generation timestamp
and the items, in order. -/
def payloadJson (ts : Timestamp) (items : List HotSearchItem) : Json :=
  .obj [("generated_at", .str ts.iso), ("items", .arr (items.map itemJson))]

/-- The filesystem, as a map from path to file content. -/
def FS := String → Option String

/-- Writing one file, truncating any previous content. -/
def FS.write (fs : FS) (path content : String) : FS :=
  fun p => if p = path then some content else fs p

/-- The constant DATA_DIR of the script. -/
def DATA_DIR : String := "data"

/-- The dated archival path data/baidu-hotsearch-YYYYMMDD.json. -/
def dailyPathOf (ts : Timestamp) : String :=
  DATA_DIR ++ "/baidu-hotsearch-" ++ ts.dateYYYYMMDD ++ ".json"

/-- The fixed path data/latest.json. -/
def latestPath : String := DATA_DIR ++ "/latest.json"

/-- save_results: serialize the envelope once, write it to the dated
archival file and to the latest file, and return the archival path. -/
def save_results (ts : Timestamp) (items : List HotSearchItem) (fs : FS) :
    FS × String :=
  let text := pyJsonDumps (payloadJson ts items)
  let daily := dailyPathOf ts
  let fs1 := fs.write daily text
  let fs2 := fs1.write latestPath text
  (fs2, daily)

/-- The environment of one run of main: the outcome of the fetch (an
exception message, or the card blocks found in the fetched markup), the
clock, the filesystem before the run, and whether the save raises an
exception (in which case partialFs is whatever state the interrupted
write left behind). -/
structure World where
  fetchResult : Except String (List Card)
  ts : Timestamp
  fs : FS
  saveExc : Option String
  partialFs : FS

/-- The observable outcome of one run: the process exit code, the final
filesystem, and the lines printed to stderr and stdout. -/
structure RunResult where
  exitCode : Nat
  fs : FS
  stderrLines : List String
  stdoutLines : List String

/-- The one-line diagnostic of the exception guard in main. -/
def fetchErrorLine (e : String) : String :=
  "Error while fetching Baidu hot search: " ++ e

/-- The function main of the script (the Lean name main is reserved, so
the model is named mainEntry): fetch, parse, fail with code 1 and a
stderr message when no items were found or when any step raised,
otherwise save and succeed with code 0. -/
def mainEntry (w : World) : RunResult :=
  match w.fetchResult with
  | .error e => ⟨1, w.fs, [fetchErrorLine e], []⟩
  | .ok cards =>
    let items := parse_hot_search cards
    if items.isEmpty then
      ⟨1, w.fs, ["No hot search items were found."], []⟩
    else
      match w.saveExc with
      | some e => ⟨1, w.partialFs, [fetchErrorLine e], []⟩
      | none =>
        let r := save_results w.ts items w.fs
        ⟨0, r.1, [],
         ["Saved " ++ toString items.length ++ " hot search items to " ++ r.2]⟩

/-! ### A JSON parser, to state the round-trip property -/

/-- JSON insignificant whitespace. -/
def jsonWs (c : Char) : Bool := c = ' ' || c = '\t' || c = '\n' || c = '\r'

/-- Skip insignificant whitespace. -/
def skipWs (s : List Char) : List Char := s.dropWhile jsonWs

/-- Value of one hexadecimal digit. -/
def hexVal? (c : Char) : Option Nat :=
  if '0' ≤ c ∧ c ≤ '9' then some (c.toNat - 48)
  else if 'a' ≤ c ∧ c ≤ 'f' then some (c.toNat - 87)
  else if 'A' ≤ c ∧ c ≤ 'F' then some (c.toNat - 55)
  else none

/-- The character denoted by a simple JSON escape. -/
def unescapeChar? (e : Char) : Option Char :=
  if e = '"' then some '"'
  else if e = '\\' then some '\\'
  else if e = '/' then some '/'
  else if e = 'b' then some '\x08'
  else if e = 'f' then some '\x0c'
  else if e = 'n' then some '\n'
  else if e = 'r' then some '\r'
  else if e = 't' then some '\t'
  else none

/-- Body of a JSON string literal, the opening quote already consumed:
returns the decoded characters and the input after the closing quote.
Unescaped control characters are rejected, as by json.loads in strict
mode. -/
def parseJStringAux : List Char → Option (List Char × List Char)
  | [] => none
  | c :: rest =>
    if c = '"' then some ([], rest)
    else if c = '\\' then
      match rest with
      | 'u' :: a :: b :: c2 :: d :: rest2 =>
        (hexVal? a).bind fun ha =>
        (hexVal? b).bind fun hb =>
        (hexVal? c2).bind fun hc =>
        (hexVal? d).bind fun hd =>
        (parseJStringAux rest2).map fun p =>
          (Char.ofNat (((ha * 16 + hb) * 16 + hc) * 16 + hd) :: p.1, p.2)
      | e :: rest2 =>
        (unescapeChar? e).bind fun ec =>
        (parseJStringAux rest2).map fun p => (ec :: p.1, p.2)
      | [] => none
    else if c.toNat < 32 then none
    else (parseJStringAux rest).map fun p => (c :: p.1, p.2)

/-- Accumulating decimal value of a digit string. -/
def digitsToNatAux : List Char → Nat → Nat
  | [], acc => acc
  | c :: t, acc => digitsToNatAux t (acc * 10 + digitVal c)

/-- Decimal value of a digit string. -/
def digitsToNat (ds : List Char) : Nat := digitsToNatAux ds 0

/-- A maximal nonempty run of decimal digits and its value. -/
def parseNat? (s : List Char) : Option (Nat × List Char) :=
  let ds := s.takeWhile Char.isDigit
  if ds.isEmpty then none
  else some (digitsToNat ds, s.dropWhile Char.isDigit)

mutual

/-- Recursive-descent JSON value parser over the constructors the
snapshot files use (strings, integers, arrays, objects), with explicit
fuel bounding the recursion depth. -/
def parseValue : Nat → List Char → Option (Json × List Char)
  | 0, _ => none
  | fuel + 1, s =>
    match skipWs s with
    | [] => none
    | c :: rest =>
      if c = '"' then
        (parseJStringAux rest).map fun p => (Json.str ⟨p.1⟩, p.2)
      else if c = '-' then
        (parseNat? rest).map fun p => (Json.int (-(p.1 : Int)), p.2)
      else if c = '[' then
        if (skipWs rest).head? = some ']' then
          some (Json.arr [], (skipWs rest).tail)
        else
          (parseElems fuel rest).map fun p => (Json.arr p.1, p.2)
      else if c = '\x7b' then
        if (skipWs rest).head? = some '\x7d' then
          some (Json.obj [], (skipWs rest).tail)
        else
          (parseMembers fuel rest).map fun p => (Json.obj p.1, p.2)
      else if c.isDigit then
        (parseNat? (c :: rest)).map fun p => (Json.int (p.1 : Int), p.2)
      else none

/-- Elements of a nonempty JSON array, up to and including the closing
bracket. -/
def parseElems : Nat → List Char → Option (List Json × List Char)
  | 0, _ => none
  | fuel + 1, s =>
    (parseValue fuel s).bind fun p =>
      if (skipWs p.2).head? = some ',' then
        (parseElems fuel (skipWs p.2).tail).map fun q => (p.1 :: q.1, q.2)
      else if (skipWs p.2).head? = some ']' then
        some ([p.1], (skipWs p.2).tail)
      else none

/-- Members of a nonempty JSON object, up to and including the closing
brace. -/
def parseMembers : Nat → List Char → Option (List (String × Json) × List Char)
  | 0, _ => none
  | fuel + 1, s =>
    match skipWs s with
    | [] => none
    | c :: rest =>
      if c = '"' then
        (parseJStringAux rest).bind fun kp =>
          if (skipWs kp.2).head? = some ':' then
            (parseValue fuel (skipWs kp.2).tail).bind fun vp =>
              if (skipWs vp.2).head? = some ',' then
                (parseMembers fuel (skipWs vp.2).tail).map fun q =>
                  ((⟨kp.1⟩, vp.1) :: q.1, q.2)
              else if (skipWs vp.2).head? = some '\x7d' then
                some ([(⟨kp.1⟩, vp.1)], (skipWs vp.2).tail)
              else none
          else none
      else none

end

/-- json.loads on a whole document: parse one value with ample fuel and
require only whitespace to remain. -/
def pyJsonLoads (s : String) : Option Json :=
  match parseValue (s.length + 1) s.data with
  | some (v, rest) => if (skipWs rest).isEmpty then some v else none
  | none => none

mutual

/-- Fuel sufficient for parseValue on the serialization of a value. -/
def jsonFuel : Json → Nat
  | .str _ => 1
  | .int _ => 1
  | .arr [] => 1
  | .arr (x :: xs) => 1 + elemsFuel x xs
  | .obj [] => 1
  | .obj (kv :: kvs) => 1 + membersFuel kv kvs
termination_by j => sizeOf j
decreasing_by all_goals (simp_wf ; try omega)

/-- Fuel sufficient for parseElems on a nonempty element chain. -/
def elemsFuel : Json → List Json → Nat
  | x, [] => 1 + jsonFuel x
  | x, y :: ys => 1 + max (jsonFuel x) (elemsFuel y ys)
termination_by x xs => sizeOf x + sizeOf xs
decreasing_by all_goals (simp_wf ; try omega)

/-- Fuel sufficient for parseMembers on a nonempty member chain. -/
def membersFuel : String × Json → List (String × Json) → Nat
  | (_, v), [] => 1 + jsonFuel v
  | (_, v), kv2 :: kvs => 1 + max (jsonFuel v) (membersFuel kv2 kvs)
termination_by kv kvs => sizeOf kv + sizeOf kvs
decreasing_by all_goals (simp_wf ; try omega)

end

/-! ### Helper lemmas on extraction and sorting -/

theorem extractCard_none {card : Card} (h : rankOf card = none) :
    extractCard card = none := by
  simp [extractCard, h]

theorem match_option_eq_elim (o : Option String) :
    (match o with | some t => pyStrip t | none => "") = o.elim "" pyStrip := by
  cases o <;> rfl

theorem match_anchor_eq_elim (d : Option (Option String)) :
    (match d with | some (some href) => pyStrip href | _ => "")
      = d.join.elim "" pyStrip := by
  rcases d with _ | (_ | h) <;> rfl

theorem extractCard_some {card : Card} {r : Int} (h : rankOf card = some r) :
    extractCard card =
      some { rank := r
             title := card.titleText.elim "" pyStrip
             summary := card.summaryText.elim "" pyStrip
             hot_score := card.hotScoreText.elim "" pyStrip
             detail_url := card.detailAnchor.join.elim "" pyStrip } := by
  rw [extractCard, h, ← match_option_eq_elim, ← match_option_eq_elim,
    ← match_option_eq_elim, ← match_anchor_eq_elim]

instance : IsTotal HotSearchItem byRank := ⟨fun a b => le_total a.rank b.rank⟩

instance : IsTrans HotSearchItem byRank := ⟨fun _ _ _ h1 h2 => le_trans h1 h2⟩

theorem insertionSort_singleton (x : HotSearchItem) :
    List.insertionSort byRank [x] = [x] := by
  simp [List.insertionSort, List.orderedInsert]

/-! ### Claims about the extractor -/

/-- C1: a card whose rank sub-element is absent or whose text the Python
int constructor rejects contributes zero entries: the output over any
markup containing it equals the output with the card removed, whatever
its other fields hold. -/
theorem rank_required (pre post : List Card) (card : Card)
    (h : rankOf card = none) :
    parse_hot_search (pre ++ card :: post) = parse_hot_search (pre ++ post) := by
  unfold parse_hot_search
  rw [List.filterMap_append, List.filterMap_append,
    List.filterMap_cons_none (extractCard_none h)]

theorem rank_required_witness :
    rankOf ⟨none, some "T", some "S", some "99", some (some "u")⟩ = none ∧
    parse_hot_search
        [⟨some "1", none, none, none, none⟩,
         ⟨none, some "T", some "S", some "99", some (some "u")⟩,
         ⟨some "2", none, none, none, none⟩] =
      parse_hot_search
        [⟨some "1", none, none, none, none⟩,
         ⟨some "2", none, none, none, none⟩] :=
  ⟨by decide,
   rank_required [⟨some "1", none, none, none, none⟩]
     [⟨some "2", none, none, none, none⟩] _ (by decide)⟩

/-- C2: the extractor output is the stable ascending-by-rank sort of the
entries extracted in document order: it is sorted under the rank order,
it is a permutation of the document-order extraction, and any two
entries with equal ranks keep their document-order relative position. -/
theorem rank_sort (cards : List Card) :
    (parse_hot_search cards).Sorted byRank
    ∧ (parse_hot_search cards).Perm (cards.filterMap extractCard)
    ∧ ∀ a b : HotSearchItem, a.rank = b.rank →
        List.Sublist [a, b] (cards.filterMap extractCard) →
        List.Sublist [a, b] (parse_hot_search cards) := by
  refine ⟨List.sorted_insertionSort byRank _, List.perm_insertionSort byRank _,
    fun a b hab h => ?_⟩
  exact List.pair_sublist_insertionSort (le_of_eq hab) h

/-- C3: a card with a parseable rank always yields exactly one entry, and
each of the four remaining fields is computed independently from its own
sub-element: the empty string when the sub-element is absent, its
stripped text (stripped href for the link) when present. -/
theorem field_default (card : Card) (r : Int) (h : rankOf card = some r) :
    parse_hot_search [card] =
      [{ rank := r
         title := card.titleText.elim "" pyStrip
         summary := card.summaryText.elim "" pyStrip
         hot_score := card.hotScoreText.elim "" pyStrip
         detail_url := card.detailAnchor.join.elim "" pyStrip }] := by
  rw [parse_hot_search, List.filterMap_cons_some (extractCard_some h),
    List.filterMap_nil, insertionSort_singleton]

theorem field_default_witness :
    rankOf ⟨some "5", none, some " s ", none, none⟩ = some 5 ∧
    parse_hot_search [⟨some "5", none, some " s ", none, none⟩] =
      [⟨5, "", "s", "", ""⟩] :=
  ⟨by decide, field_default _ 5 (by decide)⟩

/-- C4 as stated is false; this amended form holds: every produced rank
is the integer the Python int constructor reads from the rank
sub-element of some card of the input, with no further constraint (in
particular no positivity constraint). -/
theorem rank_from_card (cards : List Card) (it : HotSearchItem)
    (h : it ∈ parse_hot_search cards) :
    ∃ card ∈ cards, rankOf card = some it.rank := by
  rw [parse_hot_search, List.mem_insertionSort, List.mem_filterMap] at h
  obtain ⟨card, hc, he⟩ := h
  refine ⟨card, hc, ?_⟩
  cases hr : rankOf card with
  | none => rw [extractCard_none hr] at he; cases he
  | some r =>
    rw [extractCard_some hr] at he
    obtain rfl := Option.some.inj he
    rfl

theorem rank_from_card_witness :
    (⟨2, "", "", "", ""⟩ : HotSearchItem) ∈
        parse_hot_search [(⟨some "2", none, none, none, none⟩ : Card)] ∧
    ∃ card ∈ [(⟨some "2", none, none, none, none⟩ : Card)],
        rankOf card = some (2 : Int) :=
  ⟨by decide,
   rank_from_card [(⟨some "2", none, none, none, none⟩ : Card)]
     ⟨2, "", "", "", ""⟩ (by decide)⟩

/-- C4 counterexample: the markup consisting of one card whose rank text
is the string 0 produces an item of rank 0, so not every produced rank
is at least 1. -/
theorem rank_positive_cex :
    ¬ ∀ it ∈ parse_hot_search [⟨some "0", none, none, none, none⟩],
        1 ≤ it.rank := by decide

/-- C10: a card whose detail anchor matches the link selector but has no
href attribute is handled exactly like a card with no anchor at all: the
entry is still produced and its detail_url is the empty string. -/
theorem anchor_without_href (card : Card) (r : Int)
    (h : rankOf card = some r) (ha : card.detailAnchor = some none) :
    parse_hot_search [card] =
      parse_hot_search [{ card with detailAnchor := none }]
    ∧ ∀ it ∈ parse_hot_search [card], it.detail_url = "" := by
  have h2 : rankOf { card with detailAnchor := none } = some r := h
  rw [field_default card r h, field_default _ r h2, ha]
  exact ⟨rfl, by intro it hit; obtain rfl := List.mem_singleton.mp hit; rfl⟩

theorem anchor_without_href_witness :
    rankOf ⟨some "3", some "T", none, none, some none⟩ = some 3 ∧
    (⟨some "3", some "T", none, none, some none⟩ : Card).detailAnchor = some none ∧
    (parse_hot_search [⟨some "3", some "T", none, none, some none⟩] =
        parse_hot_search [⟨some "3", some "T", none, none, none⟩]
      ∧ ∀ it ∈ parse_hot_search [⟨some "3", some "T", none, none, some none⟩],
          it.detail_url = "") :=
  ⟨by decide, by decide, anchor_without_href _ 3 (by decide) (by decide)⟩

/-! ### Claims about the snapshotter and the entry point -/

/-- C7: one run of save_results stores the identical serialized payload
under the dated archival path and under the latest path, and returns the
archival path. -/
theorem save_two_files (ts : Timestamp) (items : List HotSearchItem) (fs : FS) :
    (save_results ts items fs).2 = dailyPathOf ts
    ∧ (save_results ts items fs).1 (dailyPathOf ts)
        = some (pyJsonDumps (payloadJson ts items))
    ∧ (save_results ts items fs).1 latestPath
        = some (pyJsonDumps (payloadJson ts items)) := by
  refine ⟨rfl, ?_, ?_⟩
  · by_cases hp : dailyPathOf ts = latestPath <;>
      simp [save_results, FS.write, hp]
  · simp [save_results, FS.write]

/-- C8: running save_results twice with the same items and the same
frozen clock leaves the very filesystem of the first run (the same two
paths overwritten with byte-identical content, no further file) and
returns the same archival path. -/
theorem save_idempotent (ts : Timestamp) (items : List HotSearchItem) (fs : FS) :
    (save_results ts items (save_results ts items fs).1).1
      = (save_results ts items fs).1
    ∧ (save_results ts items (save_results ts items fs).1).2
      = (save_results ts items fs).2 := by
  refine ⟨?_, rfl⟩
  funext p
  simp only [save_results, FS.write]
  by_cases h1 : p = latestPath <;> by_cases h2 : p = dailyPathOf ts <;>
    simp [h1, h2]

/-- C5: the entry point returns 0 exactly when the fetch succeeded, the
extractor found at least one item and the save raised nothing; every
other outcome returns 1 with a nonempty error stream. -/
theorem exit_codes (w : World) :
    ((mainEntry w).exitCode = 0 ∨ (mainEntry w).exitCode = 1)
    ∧ ((mainEntry w).exitCode = 0 ↔
        ∃ cards, w.fetchResult = Except.ok cards
          ∧ parse_hot_search cards ≠ [] ∧ w.saveExc = none)
    ∧ ((mainEntry w).exitCode = 1 → (mainEntry w).stderrLines ≠ []) := by
  rcases w with ⟨fr, ts, fs, se, pfs⟩
  cases fr with
  | error e => simp [mainEntry]
  | ok cards =>
    by_cases hi : parse_hot_search cards = []
    · simp [mainEntry, hi]
    · cases se with
      | some e => simp [mainEntry, hi, List.isEmpty_iff]
      | none => simp [mainEntry, hi, List.isEmpty_iff]

/-- C6: when the fetch raises (bad status, connection failure, timeout),
the run prints the one-line diagnostic to stderr, exits with code 1, and
the filesystem is exactly what it was before the run. -/
theorem fetch_failure (w : World) (e : String)
    (h : w.fetchResult = Except.error e) :
    (mainEntry w).exitCode = 1
    ∧ (mainEntry w).fs = w.fs
    ∧ (mainEntry w).stderrLines = [fetchErrorLine e] := by
  simp [mainEntry, h]

theorem fetch_failure_witness :
    (⟨Except.error "500 Server Error", ⟨"t", "d"⟩, fun _ => none, none,
        fun _ => none⟩ : World).fetchResult = Except.error "500 Server Error" ∧
    ((mainEntry ⟨Except.error "500 Server Error", ⟨"t", "d"⟩, fun _ => none,
        none, fun _ => none⟩).exitCode = 1
      ∧ (mainEntry ⟨Except.error "500 Server Error", ⟨"t", "d"⟩, fun _ => none,
          none, fun _ => none⟩).fs =
        (⟨Except.error "500 Server Error", ⟨"t", "d"⟩, fun _ => none, none,
          fun _ => none⟩ : World).fs
      ∧ (mainEntry ⟨Except.error "500 Server Error", ⟨"t", "d"⟩, fun _ => none,
          none, fun _ => none⟩).stderrLines =
        [fetchErrorLine "500 Server Error"]) :=
  ⟨rfl, fetch_failure _ _ rfl⟩

/-! ### Round-trip: whitespace and digit lemmas -/

theorem skipWs_cons_not {c : Char} (s : List Char) (h : jsonWs c = false) :
    skipWs (c :: s) = c :: s := by
  simp [skipWs, List.dropWhile_cons, h]

theorem skipWs_append_ws {ws : List Char} (s : List Char)
    (h : ∀ c ∈ ws, jsonWs c = true) : skipWs (ws ++ s) = skipWs s := by
  induction ws with
  | nil => rfl
  | cons c t ih =>
    have hc : jsonWs c = true := h c (List.mem_cons_self c t)
    simp only [List.cons_append, skipWs, List.dropWhile_cons, hc, if_true]
    exact ih fun d hd => h d (List.mem_cons_of_mem c hd)

theorem jsonNewlineIndent_ws (lvl : Nat) :
    ∀ c ∈ jsonNewlineIndent lvl, jsonWs c = true := by
  intro c hc
  rcases List.mem_cons.mp hc with rfl | hm
  · rfl
  · rw [List.eq_of_mem_replicate hm]; rfl

theorem skipWs_newlineIndent (lvl : Nat) (s : List Char) :
    skipWs (jsonNewlineIndent lvl ++ s) = skipWs s :=
  skipWs_append_ws s (jsonNewlineIndent_ws lvl)

theorem decDigitChar_isDigit (n : Nat) : (decDigitChar n).isDigit = true := by
  unfold decDigitChar
  split <;> rfl

theorem digitVal_decDigitChar {n : Nat} (h : n < 10) :
    digitVal (decDigitChar n) = n := by
  interval_cases n <;> rfl

theorem natDigitsAux_lt {n : Nat} (h : n < 10) (acc : List Char) :
    natDigitsAux n acc = decDigitChar n :: acc := by
  rw [natDigitsAux]
  simp [h]

theorem natDigitsAux_ge {n : Nat} (h : ¬ n < 10) (acc : List Char) :
    natDigitsAux n acc = natDigitsAux (n / 10) (decDigitChar (n % 10) :: acc) := by
  rw [natDigitsAux]
  simp [h]

theorem natDigitsAux_append (n : Nat) :
    ∀ acc, natDigitsAux n acc = natDigitsAux n [] ++ acc := by
  induction n using Nat.strong_induction_on with
  | _ n ih =>
    intro acc
    by_cases h : n < 10
    · rw [natDigitsAux_lt h, natDigitsAux_lt h]; rfl
    · rw [natDigitsAux_ge h, natDigitsAux_ge h,
        ih (n / 10) (Nat.div_lt_self (by omega) (by omega))
          (decDigitChar (n % 10) :: acc),
        ih (n / 10) (Nat.div_lt_self (by omega) (by omega))
          [decDigitChar (n % 10)],
        List.append_assoc]
      rfl

theorem natDigits_ne_nil (n : Nat) : natDigits n ≠ [] := by
  unfold natDigits
  by_cases h : n < 10
  · rw [natDigitsAux_lt h]; exact List.cons_ne_nil _ _
  · rw [natDigitsAux_ge h, natDigitsAux_append]
    intro he
    exact List.cons_ne_nil _ _ (List.append_eq_nil.mp he).2

theorem natDigits_all_digits (n : Nat) :
    ∀ c ∈ natDigits n, c.isDigit = true := by
  induction n using Nat.strong_induction_on with
  | _ n ih =>
    intro c hc
    unfold natDigits at hc
    by_cases h : n < 10
    · rw [natDigitsAux_lt h] at hc
      rcases List.mem_cons.mp hc with rfl | hm
      · exact decDigitChar_isDigit n
      · cases hm
    · rw [natDigitsAux_ge h, natDigitsAux_append] at hc
      rcases List.mem_append.mp hc with hm | hm
      · exact ih (n / 10) (Nat.div_lt_self (by omega) (by omega)) c hm
      · rcases List.mem_cons.mp hm with rfl | hm2
        · exact decDigitChar_isDigit _
        · cases hm2

theorem digitsToNatAux_append (xs : List Char) :
    ∀ ys a, digitsToNatAux (xs ++ ys) a = digitsToNatAux ys (digitsToNatAux xs a) := by
  induction xs with
  | nil => intro ys a; rfl
  | cons c t ih =>
    intro ys a
    simp only [List.cons_append, digitsToNatAux, List.append_eq, ih]

theorem digitsToNat_natDigits (n : Nat) : digitsToNat (natDigits n) = n := by
  induction n using Nat.strong_induction_on with
  | _ n ih =>
    by_cases h : n < 10
    · unfold digitsToNat natDigits
      rw [natDigitsAux, if_pos h]
      show digitsToNatAux [] (0 * 10 + digitVal (decDigitChar n)) = n
      simp [digitsToNatAux, digitVal_decDigitChar h]
    · have hd : natDigits n = natDigits (n / 10) ++ [decDigitChar (n % 10)] := by
        unfold natDigits
        rw [natDigitsAux, if_neg h, natDigitsAux_append]
      rw [digitsToNat, hd, digitsToNatAux_append]
      have hv : digitsToNatAux (natDigits (n / 10)) 0 = n / 10 :=
        ih (n / 10) (Nat.div_lt_self (by omega) (by omega))
      rw [hv]
      show (n / 10) * 10 + digitVal (decDigitChar (n % 10)) = n
      rw [digitVal_decDigitChar (Nat.mod_lt n (by omega))]
      omega

/-- Absence of a leading digit, the condition under which a maximal digit
run ends exactly at the boundary. -/
def noDigitHead (s : List Char) : Prop :=
  ∀ c, s.head? = some c → c.isDigit = false

theorem noDigitHead_nil : noDigitHead [] := fun c h => by cases h

theorem noDigitHead_cons {c : Char} (s : List Char) (h : c.isDigit = false) :
    noDigitHead (c :: s) := by
  intro d hd
  cases hd
  exact h

theorem takeWhile_digits_append {ds : List Char} (rest : List Char)
    (hall : ∀ c ∈ ds, c.isDigit = true) (hrest : noDigitHead rest) :
    (ds ++ rest).takeWhile Char.isDigit = ds
    ∧ (ds ++ rest).dropWhile Char.isDigit = rest := by
  induction ds with
  | nil =>
    constructor
    · cases rest with
      | nil => rfl
      | cons r t =>
        simp [List.takeWhile_cons, hrest r rfl]
    · cases rest with
      | nil => rfl
      | cons r t =>
        simp [List.dropWhile_cons, hrest r rfl]
  | cons c t ih =>
    have hc : c.isDigit = true := hall c (List.mem_cons_self c t)
    have iht := ih fun d hd => hall d (List.mem_cons_of_mem c hd)
    constructor
    · simp [List.takeWhile_cons, hc, iht.1]
    · simp [List.dropWhile_cons, hc, iht.2]

theorem parseNat?_digits {ds : List Char} (rest : List Char)
    (hall : ∀ c ∈ ds, c.isDigit = true) (hne : ds ≠ [])
    (hrest : noDigitHead rest) :
    parseNat? (ds ++ rest) = some (digitsToNat ds, rest) := by
  obtain ⟨h1, h2⟩ := takeWhile_digits_append rest hall hrest
  rw [parseNat?, h1, h2]
  simp [List.isEmpty_iff, hne]

theorem parseNat?_natDigits (n : Nat) (rest : List Char)
    (hrest : noDigitHead rest) :
    parseNat? (natDigits n ++ rest) = some (n, rest) := by
  rw [parseNat?_digits rest (natDigits_all_digits n) (natDigits_ne_nil n) hrest,
    digitsToNat_natDigits]

/-! ### Round-trip: character and string-escape lemmas -/

theorem isDigit_ws {c : Char} (h : c.isDigit = true) : jsonWs c = false := by
  by_contra hne
  have ht : jsonWs c = true := by
    cases hjw : jsonWs c
    · exact absurd hjw hne
    · rfl
  simp only [jsonWs, Bool.or_eq_true, decide_eq_true_eq] at ht
  rcases ht with ((h2 | h2) | h2) | h2 <;> (subst h2; exact absurd h (by decide))

theorem isDigit_ne_quote {c : Char} (h : c.isDigit = true) : c ≠ '"' := by
  intro h2
  subst h2
  exact absurd h (by decide)

theorem isDigit_ne_minus {c : Char} (h : c.isDigit = true) : c ≠ '-' := by
  intro h2
  subst h2
  exact absurd h (by decide)

theorem isDigit_ne_lbrack {c : Char} (h : c.isDigit = true) : c ≠ '[' := by
  intro h2
  subst h2
  exact absurd h (by decide)

theorem isDigit_ne_lbrace {c : Char} (h : c.isDigit = true) : c ≠ '\x7b' := by
  intro h2
  subst h2
  exact absurd h (by decide)

theorem isDigit_ne_rbrack {c : Char} (h : c.isDigit = true) : c ≠ ']' := by
  intro h2
  subst h2
  exact absurd h (by decide)

theorem isDigit_ne_rbrace {c : Char} (h : c.isDigit = true) : c ≠ '\x7d' := by
  intro h2
  subst h2
  exact absurd h (by decide)

theorem hexVal?_hexDigitChar {d : Nat} (h : d < 16) :
    hexVal? (hexDigitChar d) = some d := by
  interval_cases d <;> decide

theorem parse_escape (s : List Char) :
    ∀ rest, parseJStringAux (pyEscape s ++ '"' :: rest) = some (s, rest) := by
  induction s with
  | nil =>
    intro rest
    show parseJStringAux ([] ++ '"' :: rest) = _
    rw [List.nil_append, parseJStringAux.eq_def]
    simp
  | cons c t ih =>
    intro rest
    show parseJStringAux ((pyEscapeChar c ++ pyEscape t) ++ '"' :: rest) = _
    rw [List.append_assoc]
    by_cases h1 : c = '"'
    · subst h1
      show parseJStringAux ('\\' :: '"' :: (pyEscape t ++ '"' :: rest)) = _
      rw [parseJStringAux.eq_def]
      simp [unescapeChar?, ih]
    · by_cases h2 : c = '\\'
      · subst h2
        show parseJStringAux ('\\' :: '\\' :: (pyEscape t ++ '"' :: rest)) = _
        rw [parseJStringAux.eq_def]
        simp [unescapeChar?, ih]
      · by_cases h3 : c = '\x08'
        · subst h3
          show parseJStringAux ('\\' :: 'b' :: (pyEscape t ++ '"' :: rest)) = _
          rw [parseJStringAux.eq_def]
          simp [unescapeChar?, ih]
        · by_cases h4 : c = '\x0c'
          · subst h4
            show parseJStringAux ('\\' :: 'f' :: (pyEscape t ++ '"' :: rest)) = _
            rw [parseJStringAux.eq_def]
            simp [unescapeChar?, ih]
          · by_cases h5 : c = '\n'
            · subst h5
              show parseJStringAux ('\\' :: 'n' :: (pyEscape t ++ '"' :: rest)) = _
              rw [parseJStringAux.eq_def]
              simp [unescapeChar?, ih]
            · by_cases h6 : c = '\r'
              · subst h6
                show parseJStringAux
                    ('\\' :: 'r' :: (pyEscape t ++ '"' :: rest)) = _
                rw [parseJStringAux.eq_def]
                simp [unescapeChar?, ih]
              · by_cases h7 : c = '\t'
                · subst h7
                  show parseJStringAux
                      ('\\' :: 't' :: (pyEscape t ++ '"' :: rest)) = _
                  rw [parseJStringAux.eq_def]
                  simp [unescapeChar?, ih]
                · by_cases h8 : c.toNat < 32
                  · have he : pyEscapeChar c =
                        ['\\', 'u', '0', '0', hexDigitChar (c.toNat / 16),
                         hexDigitChar (c.toNat % 16)] := by
                      rw [pyEscapeChar, if_neg h1, if_neg h2, if_neg h3,
                        if_neg h4, if_neg h5, if_neg h6, if_neg h7, if_pos h8]
                    rw [he]
                    show parseJStringAux
                        ('\\' :: 'u' :: '0' :: '0' :: hexDigitChar (c.toNat / 16)
                          :: hexDigitChar (c.toNat % 16)
                          :: (pyEscape t ++ '"' :: rest)) = _
                    have e1 : hexVal? (hexDigitChar (c.toNat / 16))
                        = some (c.toNat / 16) := hexVal?_hexDigitChar (by omega)
                    have e2 : hexVal? (hexDigitChar (c.toNat % 16))
                        = some (c.toNat % 16) := hexVal?_hexDigitChar (by omega)
                    have e3 : ((((0 : Nat) * 16 + 0) * 16 + c.toNat / 16) * 16
                        + c.toNat % 16) = c.toNat := by omega
                    have e0 : hexVal? '0' = some 0 := by decide
                    have e4 : c.toNat / 16 * 16 + c.toNat % 16 = c.toNat := by
                      omega
                    rw [parseJStringAux.eq_def]
                    simp [e0, e1, e2, ih, e3, e4, Char.ofNat_toNat]
                  · have he : pyEscapeChar c = [c] := by
                      rw [pyEscapeChar, if_neg h1, if_neg h2, if_neg h3,
                        if_neg h4, if_neg h5, if_neg h6, if_neg h7, if_neg h8]
                    rw [he]
                    show parseJStringAux (c :: (pyEscape t ++ '"' :: rest)) = _
                    rw [parseJStringAux.eq_def]
                    simp [h1, h2, h8, ih]

/-! ### Round-trip: serializer head and whitespace absorption -/

theorem serJson_head (lvl : Nat) (j : Json) :
    ∃ c t, serJson lvl j = c :: t ∧ jsonWs c = false ∧ c ≠ ']' ∧ c ≠ '\x7d' := by
  cases j with
  | str s => exact ⟨'"', _, rfl, by decide, by decide, by decide⟩
  | int z =>
    by_cases hz : z < 0
    · refine ⟨'-', natDigits z.natAbs, ?_, by decide, by decide, by decide⟩
      show intChars z = _
      rw [intChars, if_pos hz]
    · cases hnd : natDigits z.toNat with
      | nil => exact absurd hnd (natDigits_ne_nil _)
      | cons d ds =>
        have hd : d.isDigit = true :=
          natDigits_all_digits z.toNat d (hnd ▸ List.mem_cons_self d ds)
        refine ⟨d, ds, ?_, isDigit_ws hd, isDigit_ne_rbrack hd,
          isDigit_ne_rbrace hd⟩
        show intChars z = _
        rw [intChars, if_neg hz, hnd]
  | arr elems =>
    cases elems with
    | nil => exact ⟨'[', _, rfl, by decide, by decide, by decide⟩
    | cons x xs => exact ⟨'[', _, rfl, by decide, by decide, by decide⟩
  | obj members =>
    cases members with
    | nil => exact ⟨'\x7b', _, rfl, by decide, by decide, by decide⟩
    | cons kv kvs => exact ⟨'\x7b', _, rfl, by decide, by decide, by decide⟩

theorem skipWs_serJson (lvl : Nat) (j : Json) (rest : List Char) :
    skipWs (serJson lvl j ++ rest) = serJson lvl j ++ rest := by
  obtain ⟨c, t, he, hws, _, _⟩ := serJson_head lvl j
  rw [he, List.cons_append, skipWs_cons_not _ hws]

theorem parseValue_ws (fuel : Nat) {ws : List Char} (s : List Char)
    (h : ∀ c ∈ ws, jsonWs c = true) :
    parseValue fuel (ws ++ s) = parseValue fuel s := by
  cases fuel with
  | zero => rfl
  | succ n =>
    simp only [parseValue]
    rw [skipWs_append_ws s h]

theorem parseMembers_ws (fuel : Nat) {ws : List Char} (s : List Char)
    (h : ∀ c ∈ ws, jsonWs c = true) :
    parseMembers fuel (ws ++ s) = parseMembers fuel s := by
  cases fuel with
  | zero => rfl
  | succ n =>
    simp only [parseMembers]
    rw [skipWs_append_ws s h]

/-! ### Round-trip: fuel bounds and boundary shapes -/

theorem one_le_jsonFuel (j : Json) : 1 ≤ jsonFuel j := by
  cases j with
  | str s => simp [jsonFuel]
  | int z => simp [jsonFuel]
  | arr elems => cases elems <;> simp [jsonFuel]
  | obj members => cases members <;> simp [jsonFuel]

theorem one_le_elemsFuel (x : Json) (xs : List Json) : 1 ≤ elemsFuel x xs := by
  cases xs <;> simp [elemsFuel]

theorem one_le_membersFuel (kv : String × Json) (kvs : List (String × Json)) :
    1 ≤ membersFuel kv kvs := by
  obtain ⟨k, v⟩ := kv
  cases kvs <;> simp [membersFuel]

theorem succ_jsonFuel_le_elemsFuel (x : Json) (xs : List Json) :
    jsonFuel x + 1 ≤ elemsFuel x xs := by
  cases xs with
  | nil => simp [elemsFuel]; omega
  | cons y ys =>
    simp only [elemsFuel]
    have := le_max_left (jsonFuel x) (elemsFuel y ys)
    omega

theorem elemsFuel_tail_le (x y : Json) (ys : List Json) :
    elemsFuel y ys + 1 ≤ elemsFuel x (y :: ys) := by
  simp only [elemsFuel]
  have := le_max_right (jsonFuel x) (elemsFuel y ys)
  omega

theorem succ_jsonFuel_le_membersFuel (k : String) (v : Json)
    (kvs : List (String × Json)) : jsonFuel v + 1 ≤ membersFuel (k, v) kvs := by
  cases kvs with
  | nil => simp [membersFuel]; omega
  | cons kv2 kvs2 =>
    simp only [membersFuel]
    have := le_max_left (jsonFuel v) (membersFuel kv2 kvs2)
    omega

theorem membersFuel_tail_le (k : String) (v : Json) (kv2 : String × Json)
    (kvs : List (String × Json)) :
    membersFuel kv2 kvs + 1 ≤ membersFuel (k, v) (kv2 :: kvs) := by
  simp only [membersFuel]
  have := le_max_right (jsonFuel v) (membersFuel kv2 kvs)
  omega

theorem noDigitHead_newlineIndent (lvl : Nat) (X : List Char) :
    noDigitHead (jsonNewlineIndent lvl ++ X) := by
  show noDigitHead ('\n' :: (List.replicate (2 * lvl) ' ' ++ X))
  exact noDigitHead_cons _ (by decide)

theorem noDigitHead_serArrRest (lvl lvl2 : Nat) (xs : List Json) (Y : List Char) :
    noDigitHead (serArrRest lvl xs ++ (jsonNewlineIndent lvl2 ++ Y)) := by
  cases xs with
  | nil =>
    show noDigitHead ([] ++ (jsonNewlineIndent lvl2 ++ Y))
    rw [List.nil_append]
    exact noDigitHead_newlineIndent _ _
  | cons y ys =>
    show noDigitHead ((',' :: jsonNewlineIndent lvl ++ serJson lvl y
      ++ serArrRest lvl ys) ++ (jsonNewlineIndent lvl2 ++ Y))
    exact noDigitHead_cons _ (by decide)

theorem noDigitHead_serObjRest (lvl lvl2 : Nat)
    (kvs : List (String × Json)) (Y : List Char) :
    noDigitHead (serObjRest lvl kvs ++ (jsonNewlineIndent lvl2 ++ Y)) := by
  cases kvs with
  | nil =>
    show noDigitHead ([] ++ (jsonNewlineIndent lvl2 ++ Y))
    rw [List.nil_append]
    exact noDigitHead_newlineIndent _ _
  | cons kv2 kvs2 =>
    show noDigitHead ((',' :: jsonNewlineIndent lvl ++ serMember lvl kv2
      ++ serObjRest lvl kvs2) ++ (jsonNewlineIndent lvl2 ++ Y))
    exact noDigitHead_cons _ (by decide)

theorem serMember_head (lvl : Nat) (kv : String × Json) (X : List Char) :
    serMember lvl kv ++ X
      = '"' :: (pyEscape kv.1.data
        ++ ('"' :: (':' :: (' ' :: (serJson lvl kv.2 ++ X))))) := by
  obtain ⟨k, v⟩ := kv
  show (jsonQuote k ++ ':' :: ' ' :: serJson lvl v) ++ X = _
  simp [jsonQuote, List.append_assoc]

/-! ### Round-trip: one-step reduction lemmas for the parser -/

theorem parseValue_str_step (f : Nat) {s R : List Char}
    (hs : skipWs s = '"' :: R) :
    parseValue (f + 1) s
      = (parseJStringAux R).map fun p => (Json.str ⟨p.1⟩, p.2) := by
  simp [parseValue, hs]

theorem parseValue_neg_step (f : Nat) {s R : List Char}
    (hs : skipWs s = '-' :: R) :
    parseValue (f + 1) s
      = (parseNat? R).map fun p => (Json.int (-(p.1 : Int)), p.2) := by
  simp [parseValue, hs]

theorem parseValue_digit_step (f : Nat) {s R : List Char} {c : Char}
    (hs : skipWs s = c :: R) (hd : c.isDigit = true) :
    parseValue (f + 1) s
      = (parseNat? (c :: R)).map fun p => (Json.int (p.1 : Int), p.2) := by
  simp [parseValue, hs, isDigit_ne_quote hd, isDigit_ne_minus hd,
    isDigit_ne_lbrack hd, isDigit_ne_lbrace hd, hd]

theorem parseValue_arr_nil_step (f : Nat) {s R T : List Char}
    (hs : skipWs s = '[' :: R) (h2 : skipWs R = ']' :: T) :
    parseValue (f + 1) s = some (Json.arr [], T) := by
  simp [parseValue, hs, h2]

theorem parseValue_arr_step (f : Nat) {s R : List Char}
    (hs : skipWs s = '[' :: R) (hne : (skipWs R).head? ≠ some ']') :
    parseValue (f + 1) s
      = (parseElems f R).map fun p => (Json.arr p.1, p.2) := by
  simp [parseValue, hs, hne]

theorem parseValue_obj_nil_step (f : Nat) {s R T : List Char}
    (hs : skipWs s = '\x7b' :: R) (h2 : skipWs R = '\x7d' :: T) :
    parseValue (f + 1) s = some (Json.obj [], T) := by
  simp [parseValue, hs, h2]

theorem parseValue_obj_step (f : Nat) {s R : List Char}
    (hs : skipWs s = '\x7b' :: R) (hne : (skipWs R).head? ≠ some '\x7d') :
    parseValue (f + 1) s
      = (parseMembers f R).map fun p => (Json.obj p.1, p.2) := by
  simp [parseValue, hs, hne]

theorem parseElems_cons_step (f : Nat) {s R T : List Char} {v : Json}
    (hv : parseValue f s = some (v, R)) (h1 : skipWs R = ',' :: T) :
    parseElems (f + 1) s
      = (parseElems f T).map fun q => (v :: q.1, q.2) := by
  simp [parseElems, hv, h1]

theorem parseElems_last_step (f : Nat) {s R T : List Char} {v : Json}
    (hv : parseValue f s = some (v, R)) (h1 : skipWs R = ']' :: T) :
    parseElems (f + 1) s = some ([v], T) := by
  simp [parseElems, hv, h1]

theorem parseMembers_cons_step (f : Nat) {s R R1 T1 R2 T2 : List Char}
    {k : List Char} {v : Json}
    (hs : skipWs s = '"' :: R) (hk : parseJStringAux R = some (k, R1))
    (h1 : skipWs R1 = ':' :: T1) (hv : parseValue f T1 = some (v, R2))
    (h2 : skipWs R2 = ',' :: T2) :
    parseMembers (f + 1) s
      = (parseMembers f T2).map fun q => ((⟨k⟩, v) :: q.1, q.2) := by
  simp [parseMembers, hs, hk, h1, hv, h2]

theorem parseMembers_last_step (f : Nat) {s R R1 T1 R2 T2 : List Char}
    {k : List Char} {v : Json}
    (hs : skipWs s = '"' :: R) (hk : parseJStringAux R = some (k, R1))
    (h1 : skipWs R1 = ':' :: T1) (hv : parseValue f T1 = some (v, R2))
    (h2 : skipWs R2 = '\x7d' :: T2) :
    parseMembers (f + 1) s = some ([(⟨k⟩, v)], T2) := by
  simp [parseMembers, hs, hk, h1, hv, h2]

/-! ### Round-trip: the parser inverts the serializer -/

theorem ser_parse (fuel : Nat) :
    (∀ (lvl : Nat) (j : Json) (rest : List Char),
      jsonFuel j ≤ fuel → noDigitHead rest →
      parseValue fuel (serJson lvl j ++ rest) = some (j, rest))
    ∧ (∀ (lvl lvl2 : Nat) (x : Json) (xs : List Json) (rest : List Char),
      elemsFuel x xs ≤ fuel →
      parseElems fuel (jsonNewlineIndent lvl ++ (serJson lvl x
        ++ (serArrRest lvl xs ++ (jsonNewlineIndent lvl2 ++ (']' :: rest)))))
        = some (x :: xs, rest))
    ∧ (∀ (lvl lvl2 : Nat) (kv : String × Json)
        (kvs : List (String × Json)) (rest : List Char),
      membersFuel kv kvs ≤ fuel →
      parseMembers fuel (jsonNewlineIndent lvl ++ (serMember lvl kv
        ++ (serObjRest lvl kvs ++ (jsonNewlineIndent lvl2 ++ ('\x7d' :: rest)))))
        = some (kv :: kvs, rest)) := by
  induction fuel with
  | zero =>
    refine ⟨fun lvl j rest hf _ => absurd hf ?_,
      fun lvl lvl2 x xs rest hf => absurd hf ?_,
      fun lvl lvl2 kv kvs rest hf => absurd hf ?_⟩
    · have := one_le_jsonFuel j; omega
    · have := one_le_elemsFuel x xs; omega
    · have := one_le_membersFuel kv kvs; omega
  | succ f ih =>
    obtain ⟨ihV, ihE, ihM⟩ := ih
    refine ⟨?_, ?_, ?_⟩
    · -- parseValue on a serialized value
      intro lvl j rest hf hnd
      cases j with
      | str s =>
        have hq : serJson lvl (Json.str s) ++ rest
            = '"' :: (pyEscape s.data ++ '"' :: rest) := by
          show ('"' :: pyEscape s.data ++ ['"']) ++ rest = _
          simp
        rw [hq, parseValue_str_step f (skipWs_cons_not _ (by decide)),
          parse_escape s.data]
        rfl
      | int z =>
        rcases lt_or_le z 0 with hz | hz
        · have hq : serJson lvl (Json.int z) ++ rest
              = '-' :: (natDigits z.natAbs ++ rest) := by
            show intChars z ++ rest = _
            rw [intChars, if_pos hz]
            rfl
          rw [hq, parseValue_neg_step f (skipWs_cons_not _ (by decide)),
            parseNat?_natDigits z.natAbs rest hnd]
          have hzv : -((z.natAbs : Nat) : Int) = z := by omega
          simp only [Option.map_some']
          rw [hzv]
        · cases hnd2 : natDigits z.toNat with
          | nil => exact absurd hnd2 (natDigits_ne_nil _)
          | cons d ds =>
            have hd : d.isDigit = true :=
              natDigits_all_digits z.toNat d (hnd2 ▸ List.mem_cons_self d ds)
            have hq : serJson lvl (Json.int z) ++ rest = d :: (ds ++ rest) := by
              show intChars z ++ rest = _
              rw [intChars, if_neg (not_lt.mpr hz), hnd2]
              rfl
            have hpn : parseNat? (d :: (ds ++ rest)) = some (z.toNat, rest) := by
              rw [show d :: (ds ++ rest) = natDigits z.toNat ++ rest by
                rw [hnd2]; rfl]
              exact parseNat?_natDigits z.toNat rest hnd
            rw [hq, parseValue_digit_step f (skipWs_cons_not _ (isDigit_ws hd)) hd,
              hpn]
            have hzv : ((z.toNat : Nat) : Int) = z := Int.toNat_of_nonneg hz
            simp only [Option.map_some']
            rw [hzv]
      | arr elems =>
        cases elems with
        | nil =>
          have hq : serJson lvl (Json.arr []) ++ rest
              = '[' :: ']' :: rest := rfl
          rw [hq, parseValue_arr_nil_step f (skipWs_cons_not _ (by decide))
            (skipWs_cons_not _ (by decide))]
        | cons x xs =>
          have hq : serJson lvl (Json.arr (x :: xs)) ++ rest
              = '[' :: (jsonNewlineIndent (lvl + 1) ++ (serJson (lvl + 1) x
                ++ (serArrRest (lvl + 1) xs
                  ++ (jsonNewlineIndent lvl ++ (']' :: rest))))) := by
            simp [serJson, List.append_assoc]
          obtain ⟨c0, t0, he0, hws0, hrb, hrbc⟩ := serJson_head (lvl + 1) x
          have hsk : skipWs (jsonNewlineIndent (lvl + 1) ++ (serJson (lvl + 1) x
              ++ (serArrRest (lvl + 1) xs
                ++ (jsonNewlineIndent lvl ++ (']' :: rest)))))
              = serJson (lvl + 1) x ++ (serArrRest (lvl + 1) xs
                ++ (jsonNewlineIndent lvl ++ (']' :: rest))) := by
            rw [skipWs_newlineIndent]
            exact skipWs_serJson _ _ _
          have hne : (skipWs (jsonNewlineIndent (lvl + 1)
              ++ (serJson (lvl + 1) x ++ (serArrRest (lvl + 1) xs
                ++ (jsonNewlineIndent lvl ++ (']' :: rest)))))).head?
              ≠ some ']' := by
            rw [hsk, he0, List.cons_append]
            simp [hrb]
          have hfe : elemsFuel x xs ≤ f := by
            have hjf : jsonFuel (Json.arr (x :: xs)) = 1 + elemsFuel x xs := by
              simp [jsonFuel]
            omega
          rw [hq, parseValue_arr_step f (skipWs_cons_not _ (by decide)) hne,
            ihE (lvl + 1) lvl x xs rest hfe]
          rfl
      | obj members =>
        cases members with
        | nil =>
          have hq : serJson lvl (Json.obj []) ++ rest
              = '\x7b' :: '\x7d' :: rest := rfl
          rw [hq, parseValue_obj_nil_step f (skipWs_cons_not _ (by decide))
            (skipWs_cons_not _ (by decide))]
        | cons kv kvs =>
          have hq : serJson lvl (Json.obj (kv :: kvs)) ++ rest
              = '\x7b' :: (jsonNewlineIndent (lvl + 1) ++ (serMember (lvl + 1) kv
                ++ (serObjRest (lvl + 1) kvs
                  ++ (jsonNewlineIndent lvl ++ ('\x7d' :: rest))))) := by
            simp [serJson, List.append_assoc]
          have hsm := serMember_head (lvl + 1) kv (serObjRest (lvl + 1) kvs
            ++ (jsonNewlineIndent lvl ++ ('\x7d' :: rest)))
          have hsk : skipWs (jsonNewlineIndent (lvl + 1)
              ++ (serMember (lvl + 1) kv ++ (serObjRest (lvl + 1) kvs
                ++ (jsonNewlineIndent lvl ++ ('\x7d' :: rest)))))
              = '"' :: (pyEscape kv.1.data
                ++ ('"' :: (':' :: (' ' :: (serJson (lvl + 1) kv.2
                  ++ (serObjRest (lvl + 1) kvs
                    ++ (jsonNewlineIndent lvl ++ ('\x7d' :: rest)))))))) := by
            rw [skipWs_newlineIndent, hsm]
            exact skipWs_cons_not _ (by decide)
          have hne : (skipWs (jsonNewlineIndent (lvl + 1)
              ++ (serMember (lvl + 1) kv ++ (serObjRest (lvl + 1) kvs
                ++ (jsonNewlineIndent lvl ++ ('\x7d' :: rest)))))).head?
              ≠ some '\x7d' := by
            rw [hsk]
            simp
          have hfm : membersFuel kv kvs ≤ f := by
            have hjf : jsonFuel (Json.obj (kv :: kvs))
                = 1 + membersFuel kv kvs := by
              simp [jsonFuel]
            omega
          rw [hq, parseValue_obj_step f (skipWs_cons_not _ (by decide)) hne,
            ihM (lvl + 1) lvl kv kvs rest hfm]
          rfl
    · -- parseElems on a serialized element chain
      intro lvl lvl2 x xs rest hfe
      have hnR : noDigitHead (serArrRest lvl xs
          ++ (jsonNewlineIndent lvl2 ++ (']' :: rest))) :=
        noDigitHead_serArrRest lvl lvl2 xs _
      have hjx : jsonFuel x ≤ f := by
        have := succ_jsonFuel_le_elemsFuel x xs; omega
      have hv : parseValue f (jsonNewlineIndent lvl ++ (serJson lvl x
          ++ (serArrRest lvl xs ++ (jsonNewlineIndent lvl2 ++ (']' :: rest)))))
          = some (x, serArrRest lvl xs
            ++ (jsonNewlineIndent lvl2 ++ (']' :: rest))) := by
        rw [parseValue_ws f _ (jsonNewlineIndent_ws lvl)]
        exact ihV lvl x _ hjx hnR
      cases xs with
      | nil =>
        have hsk : skipWs (serArrRest lvl ([] : List Json)
            ++ (jsonNewlineIndent lvl2 ++ (']' :: rest))) = ']' :: rest := by
          rw [show serArrRest lvl ([] : List Json)
              ++ (jsonNewlineIndent lvl2 ++ (']' :: rest))
              = jsonNewlineIndent lvl2 ++ (']' :: rest) from rfl]
          rw [skipWs_newlineIndent]
          exact skipWs_cons_not _ (by decide)
        rw [parseElems_last_step f hv hsk]
      | cons y ys =>
        have hA : serArrRest lvl (y :: ys)
            ++ (jsonNewlineIndent lvl2 ++ (']' :: rest))
            = ',' :: (jsonNewlineIndent lvl ++ (serJson lvl y
              ++ (serArrRest lvl ys
                ++ (jsonNewlineIndent lvl2 ++ (']' :: rest))))) := by
          show (',' :: jsonNewlineIndent lvl ++ serJson lvl y
            ++ serArrRest lvl ys) ++ _ = _
          simp [List.append_assoc]
        have hsk : skipWs (serArrRest lvl (y :: ys)
            ++ (jsonNewlineIndent lvl2 ++ (']' :: rest)))
            = ',' :: (jsonNewlineIndent lvl ++ (serJson lvl y
              ++ (serArrRest lvl ys
                ++ (jsonNewlineIndent lvl2 ++ (']' :: rest))))) := by
          rw [hA]
          exact skipWs_cons_not _ (by decide)
        have hfy : elemsFuel y ys ≤ f := by
          have := elemsFuel_tail_le x y ys; omega
        rw [parseElems_cons_step f hv hsk, ihE lvl lvl2 y ys rest hfy]
        rfl
    · -- parseMembers on a serialized member chain
      intro lvl lvl2 kv kvs rest hfm
      obtain ⟨k, v⟩ := kv
      have hsm := serMember_head lvl (k, v) (serObjRest lvl kvs
        ++ (jsonNewlineIndent lvl2 ++ ('\x7d' :: rest)))
      have hsk : skipWs (jsonNewlineIndent lvl ++ (serMember lvl (k, v)
          ++ (serObjRest lvl kvs
            ++ (jsonNewlineIndent lvl2 ++ ('\x7d' :: rest)))))
          = '"' :: (pyEscape k.data
            ++ ('"' :: (':' :: (' ' :: (serJson lvl v
              ++ (serObjRest lvl kvs
                ++ (jsonNewlineIndent lvl2 ++ ('\x7d' :: rest)))))))) := by
        rw [skipWs_newlineIndent, hsm]
        exact skipWs_cons_not _ (by decide)
      have hkey := parse_escape k.data (':' :: (' ' :: (serJson lvl v
        ++ (serObjRest lvl kvs ++ (jsonNewlineIndent lvl2 ++ ('\x7d' :: rest))))))
      have hskc : skipWs (':' :: (' ' :: (serJson lvl v
          ++ (serObjRest lvl kvs
            ++ (jsonNewlineIndent lvl2 ++ ('\x7d' :: rest))))))
          = ':' :: (' ' :: (serJson lvl v
            ++ (serObjRest lvl kvs
              ++ (jsonNewlineIndent lvl2 ++ ('\x7d' :: rest))))) :=
        skipWs_cons_not _ (by decide)
      have hjv : jsonFuel v ≤ f := by
        have := succ_jsonFuel_le_membersFuel k v kvs; omega
      have hndR2 : noDigitHead (serObjRest lvl kvs
          ++ (jsonNewlineIndent lvl2 ++ ('\x7d' :: rest))) :=
        noDigitHead_serObjRest lvl lvl2 kvs _
      have hval : parseValue f (' ' :: (serJson lvl v
          ++ (serObjRest lvl kvs
            ++ (jsonNewlineIndent lvl2 ++ ('\x7d' :: rest)))))
          = some (v, serObjRest lvl kvs
            ++ (jsonNewlineIndent lvl2 ++ ('\x7d' :: rest))) := by
        show parseValue f ([' '] ++ (serJson lvl v
          ++ (serObjRest lvl kvs
            ++ (jsonNewlineIndent lvl2 ++ ('\x7d' :: rest))))) = _
        rw [parseValue_ws f _ (by decide)]
        exact ihV lvl v _ hjv hndR2
      cases kvs with
      | nil =>
        have hsk2 : skipWs (serObjRest lvl ([] : List (String × Json))
            ++ (jsonNewlineIndent lvl2 ++ ('\x7d' :: rest)))
            = '\x7d' :: rest := by
          rw [show serObjRest lvl ([] : List (String × Json))
              ++ (jsonNewlineIndent lvl2 ++ ('\x7d' :: rest))
              = jsonNewlineIndent lvl2 ++ ('\x7d' :: rest) from rfl]
          rw [skipWs_newlineIndent]
          exact skipWs_cons_not _ (by decide)
        rw [parseMembers_last_step f hsk hkey hskc hval hsk2]
      | cons kv2 kvs2 =>
        have hA : serObjRest lvl (kv2 :: kvs2)
            ++ (jsonNewlineIndent lvl2 ++ ('\x7d' :: rest))
            = ',' :: (jsonNewlineIndent lvl ++ (serMember lvl kv2
              ++ (serObjRest lvl kvs2
                ++ (jsonNewlineIndent lvl2 ++ ('\x7d' :: rest))))) := by
          show (',' :: jsonNewlineIndent lvl ++ serMember lvl kv2
            ++ serObjRest lvl kvs2) ++ _ = _
          simp [List.append_assoc]
        have hsk2 : skipWs (serObjRest lvl (kv2 :: kvs2)
            ++ (jsonNewlineIndent lvl2 ++ ('\x7d' :: rest)))
            = ',' :: (jsonNewlineIndent lvl ++ (serMember lvl kv2
              ++ (serObjRest lvl kvs2
                ++ (jsonNewlineIndent lvl2 ++ ('\x7d' :: rest))))) := by
          rw [hA]
          exact skipWs_cons_not _ (by decide)
        have hfm2 : membersFuel kv2 kvs2 ≤ f := by
          have := membersFuel_tail_le k v kv2 kvs2; omega
        rw [parseMembers_cons_step f hsk hkey hskc hval hsk2,
          ihM lvl lvl2 kv2 kvs2 rest hfm2]
        rfl

/-! ### Round-trip: the document length bounds the fuel -/

mutual

theorem jsonFuel_le_len (j : Json) (lvl : Nat) :
    jsonFuel j ≤ (serJson lvl j).length + 1 := by
  cases j with
  | str s => simp [jsonFuel]
  | int z => simp [jsonFuel]
  | arr elems =>
    cases elems with
    | nil => simp [jsonFuel]
    | cons x xs =>
      have h2 := elemsFuel_le_len x xs (lvl + 1)
      simp only [jsonFuel]
      show 1 + elemsFuel x xs ≤
        (('[' :: jsonNewlineIndent (lvl + 1) ++ serJson (lvl + 1) x
          ++ serArrRest (lvl + 1) xs ++ jsonNewlineIndent lvl
          ++ [']']).length) + 1
      simp only [List.length_append, List.length_cons, jsonNewlineIndent,
        List.length_replicate]
      omega
  | obj members =>
    cases members with
    | nil => simp [jsonFuel]
    | cons kv kvs =>
      have h2 := membersFuel_le_len kv kvs (lvl + 1)
      simp only [jsonFuel]
      show 1 + membersFuel kv kvs ≤
        (('\x7b' :: jsonNewlineIndent (lvl + 1) ++ serMember (lvl + 1) kv
          ++ serObjRest (lvl + 1) kvs ++ jsonNewlineIndent lvl
          ++ ['\x7d']).length) + 1
      simp only [List.length_append, List.length_cons, jsonNewlineIndent,
        List.length_replicate]
      omega
termination_by sizeOf j
decreasing_by all_goals (simp_wf ; try omega)

theorem elemsFuel_le_len (x : Json) (xs : List Json) (lvl : Nat) :
    elemsFuel x xs ≤ (serJson lvl x).length + (serArrRest lvl xs).length + 2 := by
  cases xs with
  | nil =>
    have h1 := jsonFuel_le_len x lvl
    simp only [elemsFuel]
    omega
  | cons y ys =>
    have h1 := jsonFuel_le_len x lvl
    have h2 := elemsFuel_le_len y ys lvl
    simp only [elemsFuel]
    show 1 + max (jsonFuel x) (elemsFuel y ys) ≤ (serJson lvl x).length +
      ((',' :: jsonNewlineIndent lvl ++ serJson lvl y
        ++ serArrRest lvl ys).length) + 2
    simp only [List.length_append, List.length_cons, jsonNewlineIndent,
      List.length_replicate]
    omega
termination_by sizeOf x + sizeOf xs
decreasing_by all_goals (simp_wf ; try omega)

theorem membersFuel_le_len (kv : String × Json) (kvs : List (String × Json))
    (lvl : Nat) :
    membersFuel kv kvs
      ≤ (serMember lvl kv).length + (serObjRest lvl kvs).length + 2 := by
  obtain ⟨k, v⟩ := kv
  have h1 := jsonFuel_le_len v lvl
  have hm : (serMember lvl (k, v)).length
      = (jsonQuote k).length + 2 + (serJson lvl v).length := by
    show ((jsonQuote k ++ ':' :: ' ' :: serJson lvl v).length) = _
    simp only [List.length_append, List.length_cons]
    omega
  cases kvs with
  | nil =>
    simp only [membersFuel]
    omega
  | cons kv2 kvs2 =>
    have h2 := membersFuel_le_len kv2 kvs2 lvl
    simp only [membersFuel]
    show 1 + max (jsonFuel v) (membersFuel kv2 kvs2)
      ≤ (serMember lvl (k, v)).length +
        ((',' :: jsonNewlineIndent lvl ++ serMember lvl kv2
          ++ serObjRest lvl kvs2).length) + 2
    simp only [List.length_append, List.length_cons, jsonNewlineIndent,
      List.length_replicate]
    omega
termination_by sizeOf kv + sizeOf kvs
decreasing_by all_goals (simp_wf ; try omega)

end

theorem pyJsonLoads_dumps (j : Json) :
    pyJsonLoads (pyJsonDumps j) = some j := by
  have hfuel : jsonFuel j ≤ (serJson 0 j).length + 1 := jsonFuel_le_len j 0
  have hp : parseValue ((pyJsonDumps j).length + 1) (pyJsonDumps j).data
      = some (j, []) := by
    show parseValue ((serJson 0 j).length + 1) (serJson 0 j) = _
    have h := (ser_parse ((serJson 0 j).length + 1)).1 0 j [] hfuel noDigitHead_nil
    rw [List.append_nil] at h
    exact h
  simp [pyJsonLoads, hp, skipWs]

/-- C9: the JSON text the snapshotter stores (the same serialized string
goes to both files) parses back to exactly the in-memory envelope: the
object with the two keys generated_at and items, the same field values
per item, in the same order. -/
theorem snapshot_round_trip (ts : Timestamp) (items : List HotSearchItem)
    (fs : FS) :
    (save_results ts items fs).1 latestPath
      = some (pyJsonDumps (payloadJson ts items))
    ∧ pyJsonLoads (pyJsonDumps (payloadJson ts items))
      = some (payloadJson ts items) := by
  constructor
  · simp [save_results, FS.write]
  · exact pyJsonLoads_dumps _

